import Mathlib

/-!
Verification of the metal dispersion analyzer (src/metal_dispersion.cpp,
version 2.0 program).

The C++ source is shallowly embedded over the rational numbers: every
`double` becomes a `ℚ`, `std::complex<double>` becomes a pair of rationals
(`Cplx`), and operations whose IEEE result would be NaN (division by the
complex zero) are modelled as `Option`-failures.  File I/O is abstracted:
the input stream of `Material.loadData` is modelled as the list of rows
the stream extraction would see, each row `some (λ, n, k)` when the line
parses as three comma-separated numbers and `none` when extraction fails.
-/

/-- Speed of light constant from the source: `constexpr double c = 2.99792458e8`. -/
def c : ℚ := 2.99792458e8

/-- The source's pi constant: `constexpr double pi = 3.1415` (note: truncated,
not the IEEE double nearest to π). -/
def pi : ℚ := 3.1415

/-- Default high-frequency permittivity: `constexpr double eps_inf = 4.3`. -/
def eps_inf : ℚ := 4.3

/-- Validity window lower bound: `constexpr double omega_min = 1.5e15`. -/
def omega_min : ℚ := 1.5e15

/-- Validity window upper bound: `constexpr double omega_max = 4.0e15`. -/
def omega_max : ℚ := 4.0e15

/-- Plasma-frequency search lower bound: `constexpr double omega_p_min = 1.0e15`. -/
def omega_p_min : ℚ := 1.0e15

/-- Plasma-frequency search upper bound: `constexpr double omega_p_max = 3.0e16`. -/
def omega_p_max : ℚ := 3.0e16

/-- Damping search lower bound: `constexpr double gamma_min = 1.0e13`. -/
def gamma_min : ℚ := 1.0e13

/-- Damping search upper bound: `constexpr double gamma_max = 1.5e14`. -/
def gamma_max : ℚ := 1.5e14

/-- Plasma-frequency step: `double domega_p = 0.05e15`. -/
def domega_p : ℚ := 0.05e15

/-- Damping step: `double dgamma = 0.1e13`. -/
def dgamma : ℚ := 0.1e13

/-- Rational model of `std::complex<double>`. -/
structure Cplx where
  re : ℚ
  im : ℚ
deriving DecidableEq, Repr

namespace Cplx

/-- Complex addition, as in `std::complex`. -/
def add (a b : Cplx) : Cplx := ⟨a.re + b.re, a.im + b.im⟩

/-- Complex subtraction, as in `std::complex`. -/
def sub (a b : Cplx) : Cplx := ⟨a.re - b.re, a.im - b.im⟩

/-- Complex multiplication, as in `std::complex`. -/
def mul (a b : Cplx) : Cplx :=
  ⟨a.re * b.re - a.im * b.im, a.re * b.im + a.im * b.re⟩

/-- Complex division: the mathematical value `a / b = a·conj(b) / |b|²` that
`std::complex<double>::operator/` computes (up to rounding).  Meaningful only
when `b ≠ 0`; at `b = 0` the C++ result is NaN/Inf and callers of this
embedding must guard that case (see `drude_eps`). -/
def div (a b : Cplx) : Cplx :=
  let d : ℚ := b.re * b.re + b.im * b.im
  ⟨(a.re * b.re + a.im * b.im) / d, (a.im * b.re - a.re * b.im) / d⟩

/-- Embed a real (rational) scalar, as the implicit conversion in
`eps_inf - (omega_p*omega_p)/denom`. -/
def ofRat (s : ℚ) : Cplx := ⟨s, 0⟩

end Cplx

/-- The Drude dielectric function of the source:

    std::complex<double> drude_eps(double omega, double eps_inf,
                                   double omega_p, double gamma){
        std::complex<double> denom = {omega*omega, gamma*omega};
        return eps_inf - (omega_p * omega_p)/denom;
    }

When `denom` is the complex zero (exactly when `omega = 0`) the division has
no defined value (NaN in IEEE arithmetic); the embedding returns `none` there
and `some` of the computed value otherwise. -/
def drude_eps (omega eps_inf_p omega_p gamma : ℚ) : Option Cplx :=
  let denom : Cplx := ⟨omega * omega, gamma * omega⟩
  if denom = ⟨0, 0⟩ then none
  else some (Cplx.sub (Cplx.ofRat eps_inf_p) (Cplx.div (Cplx.ofRat (omega_p * omega_p)) denom))

/-- The dataset held by class `Material`: parallel vectors `wavelength_`,
`n_`, `k_`.  The `name_` string field is presentation-only and omitted. -/
structure Material where
  wavelength : List ℚ
  n : List ℚ
  k : List ℚ
deriving DecidableEq, Repr

namespace Material

/-- Angular frequencies, `Material::getOmega`: per sample,
`omega = (2*pi*c)/(wavelength_[i]*1e-9)` (with the source's `pi = 3.1415`). -/
def getOmega (m : Material) : List ℚ :=
  m.wavelength.map (fun l => (2 * pi * c) / (l * 1e-9))

/-- Photon energies, `Material::getEnergy`: per sample,
`energy = 1240 / wavelength_[i]`. -/
def getEnergy (m : Material) : List ℚ :=
  m.wavelength.map (fun l => 1240 / l)

/-- Permittivity derivation, `Material::computeEpsilon`: per sample,
`eps_real = n_[i]*n_[i] - k_[i]*k_[i]` and `eps_imag = 2*n_[i]*k_[i]`,
pushed in order onto two result vectors.  The loop runs over
`wavelength_.size()` and indexes `n_[i]`, `k_[i]`; out-of-range access
(possible only when the parallel vectors have unequal lengths, which
`loadData` never produces) is modelled by `getD _ 0`. -/
def computeEpsilon (m : Material) : List ℚ × List ℚ :=
  ((List.range m.wavelength.length).map
     (fun i => m.n.getD i 0 * m.n.getD i 0 - m.k.getD i 0 * m.k.getD i 0),
   (List.range m.wavelength.length).map
     (fun i => 2 * m.n.getD i 0 * m.k.getD i 0))

end Material

/-- One input row as the stream extraction
`file >> lambda >> comma >> n_real >> comma >> n_imag` sees it:
`some (λ, n, k)` when the line parses as three comma-separated numbers,
`none` when extraction fails (malformed line or end of data). -/
abbrev Row := Option (ℚ × ℚ × ℚ)

/-- The extraction loop of `Material::loadData`: rows are consumed and pushed
while extraction succeeds; the first failing extraction ends the loop,
silently discarding that row and everything after it.  No exception is
thrown and no row validation (e.g. of the wavelength sign) is performed. -/
def loadLoop (m : Material) : List Row → Material
  | [] => m
  | none :: _ => m
  | some (l, nv, kv) :: rest =>
      loadLoop ⟨m.wavelength ++ [l], m.n ++ [nv], m.k ++ [kv]⟩ rest

/-- Loading, `Material::loadData`, on an already-opened source (the
file-cannot-be-open `runtime_error` branch is I/O and outside this model):
runs the extraction loop on an initially empty dataset. -/
def loadData (rows : List Row) : Material :=
  loadLoop ⟨[], [], []⟩ rows

/-- The summary line printed at the end of `loadData` reads
`wavelength_.size()`, `wavelength_.front()` and `wavelength_.back()`.
`front()`/`back()` on an empty vector are undefined behaviour, modelled as
`none`. -/
def loadSummary (m : Material) : Option (ℕ × ℚ × ℚ) :=
  match m.wavelength.head?, m.wavelength.getLast? with
  | some f, some b => some (m.wavelength.length, f, b)
  | _, _ => none

/-- The fitting configuration.  In the source these are the file-scope
constants reproduced in `defaultConfig`; the spec (§4.4, §6) presents them as
an explicit configuration record passed to the fitter, which is how the
embedding parameterizes them. -/
structure Config where
  epsInf : ℚ
  plasmaMin : ℚ
  plasmaMax : ℚ
  plasmaStep : ℚ
  dampMin : ℚ
  dampMax : ℚ
  dampStep : ℚ
  windowMin : ℚ
  windowMax : ℚ
deriving DecidableEq, Repr

/-- The source's compile-time fitting configuration. -/
def defaultConfig : Config :=
  ⟨eps_inf, omega_p_min, omega_p_max, domega_p,
   gamma_min, gamma_max, dgamma, omega_min, omega_max⟩

/-- Body of the `computeError` loop for one remaining list of indices `is`
with accumulator `acc`.  Mirrors

    for (size_t i = 0; i < omega.size(); i++){
        if (omega[i] < omega_min || omega[i] > omega_max) continue;
        eps_model = drude_eps(omega[i], eps_inf, omega_p, gamma);
        double real_error = std::real(eps_model) - eps1_data[i];
        double img_error  = std::imag(eps_model) - eps2_data[i];
        double norm = eps1_data[i]*eps1_data[i] + eps2_data[i]*eps2_data[i] + 1e-12;
        error += (real_error*real_error + img_error*img_error) / norm;
    }

A `none` from `drude_eps` (the NaN case, only possible for an in-window zero
frequency) poisons the whole result, as NaN would. -/
def errGo (omega e1 e2 : List ℚ) (einf omega_p gamma wmin wmax : ℚ) :
    List ℕ → ℚ → Option ℚ
  | [], acc => some acc
  | i :: is, acc =>
    let w := omega.getD i 0
    if w < wmin ∨ wmax < w then errGo omega e1 e2 einf omega_p gamma wmin wmax is acc
    else
      match drude_eps w einf omega_p gamma with
      | none => none
      | some em =>
        let real_error := em.re - e1.getD i 0
        let img_error := em.im - e2.getD i 0
        let nrm := e1.getD i 0 * e1.getD i 0 + e2.getD i 0 * e2.getD i 0 + 1e-12
        errGo omega e1 e2 einf omega_p gamma wmin wmax is
          (acc + (real_error * real_error + img_error * img_error) / nrm)

/-- The source's `computeError`: normalized least-squares error of the Drude
model against the data, over the indices whose frequency lies in the validity
window.  In the source the window bounds are the globals `omega_min`,
`omega_max`; they are explicit arguments here and instantiated with the
source's values through `defaultConfig`. -/
def computeError (omega : List ℚ) (einf omega_p gamma : ℚ) (e1 e2 : List ℚ)
    (wmin wmax : ℚ) : Option ℚ :=
  errGo omega e1 e2 einf omega_p gamma wmin wmax (List.range omega.length) 0

/-- Fuel-indexed model of the C++ counting loop
`for (double p = mn; p < mx; p += step)`: emits the visited values in order.
The fuel passed by `gridPoints` is exactly the number of iterations the loop
performs when `step > 0`. -/
def gridGo (mx step : ℚ) : ℕ → ℚ → List ℚ
  | 0, _ => []
  | fuel + 1, p => if p < mx then p :: gridGo mx step fuel (p + step) else []

/-- The list of grid values the loop `for (double p = mn; p < mx; p += step)`
visits.  Over exact rational arithmetic the loop runs `⌈(mx - mn)/step⌉`
times (when positive); that count is supplied as fuel.  For `step ≤ 0` the
C++ loop would never terminate (the source always uses positive steps);
the model returns `[]` there. -/
def gridPoints (mn mx step : ℚ) : List ℚ :=
  gridGo mx step (if 0 < step then (⌈(mx - mn) / step⌉).toNat else 0) mn

/-- The running best of the grid search: `best_error`, `best_omega_p`,
`best_gamma` of `main`. -/
structure FitState where
  best_error : ℚ
  best_omega_p : ℚ
  best_gamma : ℚ
deriving DecidableEq, Repr

/-- One grid-cell update of the search:

    double err = computeError(omega, eps_inf, omega_p, gamma, eps1_data, eps2_data);
    if (err < best_error){ best_error = err; best_omega_p = omega_p; best_gamma = gamma; }

A NaN error (modelled `none`) compares false under `<` and leaves the
incumbent unchanged. -/
def fitStep (f : ℚ × ℚ → Option ℚ) (st : FitState) (pg : ℚ × ℚ) : FitState :=
  match f pg with
  | none => st
  | some err => if err < st.best_error then ⟨err, pg.1, pg.2⟩ else st

/-- The error of one grid cell `(omega_p, gamma)` for a given dataset and
configuration. -/
def cellError (omega e1 e2 : List ℚ) (cfg : Config) (pg : ℚ × ℚ) : Option ℚ :=
  computeError omega cfg.epsInf pg.1 pg.2 e1 e2 cfg.windowMin cfg.windowMax

/-- The grid search of `main`: the nested half-open loops

    double best_error = 1e300; double best_omega_p = 0.0; double best_gamma = 0.0;
    for (double omega_p = omega_p_min; omega_p < omega_p_max; omega_p += domega_p)
        for (double gamma = gamma_min; gamma < gamma_max; gamma += dgamma)
            ...fitStep...

folded left over the enumerated grid values. -/
def gridSearch (omega e1 e2 : List ℚ) (cfg : Config) : FitState :=
  (gridPoints cfg.plasmaMin cfg.plasmaMax cfg.plasmaStep).foldl
    (fun st p =>
      (gridPoints cfg.dampMin cfg.dampMax cfg.dampStep).foldl
        (fun st g => fitStep (cellError omega e1 e2 cfg) st (p, g)) st)
    ⟨1e300, 0, 0⟩

/-- The grid cells in search order: outer plasma frequency, inner damping. -/
def gridPairs (cfg : Config) : List (ℚ × ℚ) :=
  (gridPoints cfg.plasmaMin cfg.plasmaMax cfg.plasmaStep).flatMap
    (fun p => (gridPoints cfg.dampMin cfg.dampMax cfg.dampStep).map (fun g => (p, g)))

/-! ## Basic facts about the Drude evaluation -/

/-- Value taken by `drude_eps` when the denominator is nonzero. -/
def drudeVal (omega einf omega_p gamma : ℚ) : Cplx :=
  Cplx.sub (Cplx.ofRat einf)
    (Cplx.div (Cplx.ofRat (omega_p * omega_p)) ⟨omega * omega, gamma * omega⟩)

theorem drude_eps_of_ne_zero (omega einf omega_p gamma : ℚ) (h : omega ≠ 0) :
    drude_eps omega einf omega_p gamma = some (drudeVal omega einf omega_p gamma) := by
  unfold drude_eps drudeVal
  rw [if_neg]
  intro hc
  exact h (by
    have := congrArg Cplx.re hc
    simpa [mul_self_eq_zero] using this)

theorem drude_eps_zero (einf omega_p gamma : ℚ) :
    drude_eps 0 einf omega_p gamma = none := by
  unfold drude_eps
  simp

/-- C4: for all parameters with the denominator `omega² + i·gamma·omega`
nonzero, the Drude evaluation returns exactly the complex number
`epsInf - omegaP²/d`: the returned `z` satisfies `(epsInf - z)·d = omegaP²`
with `d ≠ 0`, which characterizes `z = epsInf - omegaP²/d` exactly, with no
approximation. -/
theorem drude_eps_exact_formula (omega einf omega_p gamma : ℚ)
    (h : ¬(omega = 0 ∧ gamma * omega = 0)) :
    ∃ z : Cplx, drude_eps omega einf omega_p gamma = some z ∧
      (⟨omega * omega, gamma * omega⟩ : Cplx) ≠ Cplx.ofRat 0 ∧
      Cplx.mul (Cplx.sub (Cplx.ofRat einf) z) ⟨omega * omega, gamma * omega⟩
        = Cplx.ofRat (omega_p * omega_p) := by
  have homega : omega ≠ 0 := by
    intro h0
    exact h ⟨h0, by rw [h0, mul_zero]⟩
  refine ⟨drudeVal omega einf omega_p gamma,
    drude_eps_of_ne_zero omega einf omega_p gamma homega, ?_, ?_⟩
  · intro hc
    have := congrArg Cplx.re hc
    simp only [Cplx.ofRat] at this
    exact homega (mul_self_eq_zero.mp this)
  · have hN : omega * omega * (omega * omega) + gamma * omega * (gamma * omega) ≠ 0 := by
      intro h0
      have h1 : 0 < omega * omega * (omega * omega) :=
        mul_pos (mul_self_pos.mpr homega) (mul_self_pos.mpr homega)
      have h2 : 0 ≤ gamma * omega * (gamma * omega) := mul_self_nonneg _
      nlinarith
    simp only [drudeVal, Cplx.sub, Cplx.mul, Cplx.div, Cplx.ofRat, Cplx.mk.injEq]
    constructor
    · field_simp
      ring
    · field_simp
      ring

/-- C5 counterexample: at `omega = 0` with `gamma = 1 > 0` the Drude
evaluation does not yield `epsInf = 4.3`; the denominator is the complex
zero and the division is undefined (NaN in the C++ arithmetic, `none` in the
embedding) — the implementation has no guard for this case. -/
theorem drude_eps_zero_not_epsInf :
    drude_eps 0 (4.3 : ℚ) 2 1 ≠ some (Cplx.ofRat 4.3) := by
  rw [drude_eps_zero]
  simp

/-- C5 amended: evaluating the Drude model at `omega = 0` is undefined for
every damping rate (the denominator `omega² + i·gamma·omega` is the complex
zero and the implementation has no guard, so no value is produced), while
for every nonzero `omega` the evaluation is defined. -/
theorem drude_eps_zero_unguarded (einf omega_p gamma : ℚ) :
    drude_eps 0 einf omega_p gamma = none ∧
      ∀ omega : ℚ, omega ≠ 0 → (drude_eps omega einf omega_p gamma).isSome := by
  refine ⟨drude_eps_zero einf omega_p gamma, fun omega h => ?_⟩
  rw [drude_eps_of_ne_zero omega einf omega_p gamma h]
  rfl

/-- Witness for C4's theorem at `omega = 1`, `gamma = 1`, `epsInf = 0`,
`omegaP = 1`. -/
theorem drude_eps_exact_formula_witness :
    ¬((1 : ℚ) = 0 ∧ (1 : ℚ) * 1 = 0) ∧
      ∃ z : Cplx, drude_eps 1 0 1 1 = some z ∧
        (⟨(1 : ℚ) * 1, (1 : ℚ) * 1⟩ : Cplx) ≠ Cplx.ofRat 0 ∧
        Cplx.mul (Cplx.sub (Cplx.ofRat 0) z) ⟨(1 : ℚ) * 1, (1 : ℚ) * 1⟩
          = Cplx.ofRat ((1 : ℚ) * 1) :=
  ⟨by norm_num, drude_eps_exact_formula 1 0 1 1 (by norm_num)⟩

/-- Witness for C5's amended theorem at concrete parameters. -/
theorem drude_eps_zero_unguarded_witness :
    drude_eps 0 (4.3 : ℚ) 2 1 = none ∧ (drude_eps 1 (4.3 : ℚ) 2 1).isSome :=
  ⟨(drude_eps_zero_unguarded (4.3 : ℚ) 2 1).1,
   (drude_eps_zero_unguarded (4.3 : ℚ) 2 1).2 1 (by norm_num)⟩

/-! ## Permittivity and conversion theorems -/

theorem getD_range_map (f : ℕ → ℚ) (n i : ℕ) (h : i < n) :
    ((List.range n).map f).getD i 0 = f i := by
  simp [List.getD_eq_getElem?_getD, List.getElem?_map, List.getElem?_range h]

/-- C6: for every loaded sample the derived permittivity is exactly
`ε₁ = n² - k²` and `ε₂ = 2nk`, the two returned sequences have one entry per
sample in sample order, and `ε₂ ≥ 0` whenever `n ≥ 0` and `k ≥ 0`. -/
theorem computeEpsilon_spec (m : Material)
    (_hn : m.n.length = m.wavelength.length) (_hk : m.k.length = m.wavelength.length) :
    m.computeEpsilon.1.length = m.wavelength.length ∧
    m.computeEpsilon.2.length = m.wavelength.length ∧
    ∀ i, i < m.wavelength.length →
      m.computeEpsilon.1.getD i 0 = m.n.getD i 0 ^ 2 - m.k.getD i 0 ^ 2 ∧
      m.computeEpsilon.2.getD i 0 = 2 * m.n.getD i 0 * m.k.getD i 0 ∧
      (0 ≤ m.n.getD i 0 → 0 ≤ m.k.getD i 0 → 0 ≤ m.computeEpsilon.2.getD i 0) := by
  refine ⟨by simp [Material.computeEpsilon], by simp [Material.computeEpsilon], ?_⟩
  intro i hi
  have h1 : m.computeEpsilon.1.getD i 0
      = m.n.getD i 0 * m.n.getD i 0 - m.k.getD i 0 * m.k.getD i 0 := by
    simpa [Material.computeEpsilon] using
      getD_range_map (fun j => m.n.getD j 0 * m.n.getD j 0 - m.k.getD j 0 * m.k.getD j 0)
        m.wavelength.length i hi
  have h2 : m.computeEpsilon.2.getD i 0 = 2 * m.n.getD i 0 * m.k.getD i 0 := by
    simpa [Material.computeEpsilon] using
      getD_range_map (fun j => 2 * m.n.getD j 0 * m.k.getD j 0) m.wavelength.length i hi
  refine ⟨by rw [h1]; ring, h2, ?_⟩
  intro hn0 hk0
  rw [h2]
  positivity

/-- Witness for C6's theorem on the one-sample dataset `(λ, n, k) = (500, 2, 1)`. -/
theorem computeEpsilon_spec_witness :
    ((⟨[500], [2], [1]⟩ : Material).n.length = (⟨[500], [2], [1]⟩ : Material).wavelength.length) ∧
    ((⟨[500], [2], [1]⟩ : Material).k.length = (⟨[500], [2], [1]⟩ : Material).wavelength.length) ∧
    ((⟨[500], [2], [1]⟩ : Material).computeEpsilon.1.length
        = (⟨[500], [2], [1]⟩ : Material).wavelength.length ∧
      (⟨[500], [2], [1]⟩ : Material).computeEpsilon.2.length
        = (⟨[500], [2], [1]⟩ : Material).wavelength.length ∧
      ∀ i, i < (⟨[500], [2], [1]⟩ : Material).wavelength.length →
        (⟨[500], [2], [1]⟩ : Material).computeEpsilon.1.getD i 0
            = (⟨[500], [2], [1]⟩ : Material).n.getD i 0 ^ 2
              - (⟨[500], [2], [1]⟩ : Material).k.getD i 0 ^ 2 ∧
        (⟨[500], [2], [1]⟩ : Material).computeEpsilon.2.getD i 0
            = 2 * (⟨[500], [2], [1]⟩ : Material).n.getD i 0
              * (⟨[500], [2], [1]⟩ : Material).k.getD i 0 ∧
        (0 ≤ (⟨[500], [2], [1]⟩ : Material).n.getD i 0 →
          0 ≤ (⟨[500], [2], [1]⟩ : Material).k.getD i 0 →
          0 ≤ (⟨[500], [2], [1]⟩ : Material).computeEpsilon.2.getD i 0)) :=
  ⟨rfl, rfl, computeEpsilon_spec ⟨[500], [2], [1]⟩ rfl rfl⟩

/-- C7 counterexample: the claimed identity `ω = 2πc/(λ·10⁻⁹)` fails on the
code at λ = 620 nm, because the source approximates π by `3.1415`; the
computed angular frequency is strictly below `2π·2.99792458e8/620e-9`. -/
theorem getOmega_ne_two_pi_formula :
    (((Material.getOmega ⟨[620], [1], [1]⟩).getD 0 0 : ℚ) : ℝ)
      ≠ 2 * Real.pi * 2.99792458e8 / (620 * 1e-9) := by
  have h1 : (Material.getOmega ⟨[620], [1], [1]⟩).getD 0 0
      = 2 * 3.1415 * 2.99792458e8 / (620 * 1e-9) := by
    norm_num [Material.getOmega, pi, c]
  rw [h1]
  apply ne_of_lt
  have hπ : (3.141592 : ℝ) < Real.pi := Real.pi_gt_d6
  push_cast
  rw [div_lt_div_iff₀ (by norm_num) (by norm_num)]
  nlinarith [hπ]

/-- C7 amended: the energy conversion `E = 1240/λ` is exact, so at
λ = 620 nm the energy is exactly 2 eV; the frequency conversion uses the
source's `pi = 3.1415`, so at λ = 620 nm it returns exactly
`2·3.1415·2.99792458e8/(620·10⁻⁹)` ≈ 3.03806e15 rad/s — within `4e11` of
the quoted `3.0377e15` and within `1e11` of the exact-π value
`2π·2.99792458e8/620e-9`, but not equal to it. -/
theorem conversions_at_620 :
    Material.getEnergy ⟨[620], [1], [1]⟩ = [2] ∧
    Material.getOmega ⟨[620], [1], [1]⟩ = [2 * 3.1415 * 2.99792458e8 / (620 * 1e-9)] ∧
    |(2 * 3.1415 * 2.99792458e8 / (620 * 1e-9) : ℚ) - 3.0377e15| ≤ 4e11 ∧
    |(2 * 3.1415 * 2.99792458e8 / (620 * 1e-9) : ℝ)
        - 2 * Real.pi * 2.99792458e8 / (620 * 1e-9)| ≤ 1e11 := by
  refine ⟨by norm_num [Material.getEnergy], by norm_num [Material.getOmega, pi, c], ?_, ?_⟩
  · rw [abs_le]
    constructor <;> norm_num
  · have hπl : (3.141592 : ℝ) < Real.pi := Real.pi_gt_d6
    have hπu : Real.pi < 3.141593 := Real.pi_lt_d6
    rw [abs_le]
    constructor
    · rw [div_sub_div_same, le_div_iff₀ (by norm_num)]
      nlinarith
    · rw [div_sub_div_same, div_le_iff₀ (by norm_num)]
      nlinarith

/-! ## Load-operation theorems -/

/-- C8: the load operation performs no wavelength validation.  Rows with a
zero or negative wavelength are accepted into the dataset (to be divided by
later in the energy/frequency conversions) instead of being rejected with an
`InvalidSampleError`; no such error exists in the source. -/
theorem loadData_accepts_nonpositive_wavelength :
    loadData [some (0, 1, 1), some (-5, 2, 2)]
        = (⟨[0, -5], [1, 2], [1, 2]⟩ : Material) ∧
      (loadSummary (loadData [some (0, 1, 1), some (-5, 2, 2)])).isSome := by
  constructor <;> rfl

/-- C9: a malformed row does not abort the load with a `DataFormatError`;
stream extraction fails there, the loop stops, and the prefix of rows before
the malformed line is silently kept as the loaded dataset, which then reports
a successful one-point summary. -/
theorem loadData_keeps_prefix_on_malformed :
    loadData [some (400, 1, 2), none, some (500, 3, 4)]
        = (⟨[400], [1], [2]⟩ : Material) ∧
      loadSummary (loadData [some (400, 1, 2), none, some (500, 3, 4)])
        = some (1, 400, 400) := by
  constructor <;> rfl

theorem loadLoop_wavelength_extends (rows : List Row) :
    ∀ m : Material, ∃ t : List ℚ, (loadLoop m rows).wavelength = m.wavelength ++ t := by
  induction rows with
  | nil => exact fun m => ⟨[], by simp [loadLoop]⟩
  | cons r rest ih =>
    intro m
    match r with
    | none => exact ⟨[], by simp [loadLoop]⟩
    | some (l, nv, kv) =>
      obtain ⟨t, ht⟩ := ih ⟨m.wavelength ++ [l], m.n ++ [nv], m.k ++ [kv]⟩
      exact ⟨l :: t, by simp [loadLoop, ht]⟩

theorem loadSummary_isSome_iff (m : Material) :
    (loadSummary m).isSome ↔ m.wavelength ≠ [] := by
  unfold loadSummary
  match hw : m.wavelength with
  | [] => simp
  | x :: xs =>
    have h1 : (x :: xs).head? = some x := rfl
    have h2 : (x :: xs).getLast?.isSome := List.getLast?_isSome.mpr (by simp)
    obtain ⟨b, hb⟩ := Option.isSome_iff_exists.mp h2
    rw [h1, hb]
    simp

/-- C10 (implicit): when zero rows parse, the load still completes and
returns an empty dataset, and the summary — which reads `front()` and
`back()` of the empty wavelength vector — is an unguarded empty-sequence
access (modelled `none`); the summary is well-defined exactly when the
first row parses, i.e. when at least one row is loaded. -/
theorem loadData_empty_summary_unguarded :
    loadData [] = (⟨[], [], []⟩ : Material) ∧
      loadSummary (loadData []) = none ∧
      loadSummary (loadData [none]) = none ∧
      ∀ rows : List Row,
        (loadSummary (loadData rows)).isSome ↔ ∃ r rest, rows = some r :: rest := by
  refine ⟨rfl, rfl, rfl, fun rows => ?_⟩
  rw [loadSummary_isSome_iff]
  match rows with
  | [] => simp [loadData, loadLoop]
  | none :: rest => simp [loadData, loadLoop]
  | some (l, nv, kv) :: rest =>
    obtain ⟨t, ht⟩ :=
      loadLoop_wavelength_extends rest (⟨[] ++ [l], [] ++ [nv], [] ++ [kv]⟩ : Material)
    constructor
    · exact fun _ => ⟨(l, nv, kv), rest, rfl⟩
    · intro _
      show (loadLoop ⟨[], [], []⟩ (some (l, nv, kv) :: rest)).wavelength ≠ []
      unfold loadLoop
      rw [ht]
      simp

/-- Witness for C10's theorem: one parsed row yields a defined summary. -/
theorem loadData_empty_summary_unguarded_witness :
    (loadSummary (loadData [some (400, 1, 2)])).isSome :=
  (loadData_empty_summary_unguarded.2.2.2 [some (400, 1, 2)]).mpr ⟨(400, 1, 2), [], rfl⟩

/-! ## FitError characterization -/

/-- Per-index contribution to the fit error in the spec's form (§4.3): for an
index inside the validity window, squared real and imaginary residuals of the
model against the data, normalized by `eps1² + eps2² + 1e-12`; zero outside
the window. -/
def errTerm (omega e1 e2 : List ℚ) (einf omega_p gamma wmin wmax : ℚ) (i : ℕ) : ℚ :=
  if wmin ≤ omega.getD i 0 ∧ omega.getD i 0 ≤ wmax then
    (((drudeVal (omega.getD i 0) einf omega_p gamma).re - e1.getD i 0) ^ 2
        + ((drudeVal (omega.getD i 0) einf omega_p gamma).im - e2.getD i 0) ^ 2)
      / (e1.getD i 0 ^ 2 + e2.getD i 0 ^ 2 + 1e-12)
  else 0

theorem errTerm_nonneg (omega e1 e2 : List ℚ) (einf omega_p gamma wmin wmax : ℚ) (i : ℕ) :
    0 ≤ errTerm omega e1 e2 einf omega_p gamma wmin wmax i := by
  unfold errTerm
  split
  · positivity
  · exact le_refl 0

theorem errGo_eq (omega e1 e2 : List ℚ) (einf omega_p gamma wmin wmax : ℚ) :
    ∀ (is : List ℕ) (acc : ℚ),
      (∀ i ∈ is, wmin ≤ omega.getD i 0 → omega.getD i 0 ≤ wmax → omega.getD i 0 ≠ 0) →
      errGo omega e1 e2 einf omega_p gamma wmin wmax is acc
        = some (acc + (is.map (errTerm omega e1 e2 einf omega_p gamma wmin wmax)).sum) := by
  intro is
  induction is with
  | nil => intro acc _; simp [errGo]
  | cons i is ih =>
    intro acc hnz
    by_cases h : omega.getD i 0 < wmin ∨ wmax < omega.getD i 0
    · have hterm : errTerm omega e1 e2 einf omega_p gamma wmin wmax i = 0 := by
        unfold errTerm
        rw [if_neg]
        intro hc
        rcases h with h | h
        · exact absurd hc.1 (not_le.mpr h)
        · exact absurd hc.2 (not_le.mpr h)
      rw [errGo, if_pos h, ih acc (fun j hj => hnz j (List.mem_cons_of_mem _ hj))]
      simp [hterm]
    · push_neg at h
      have hz : omega.getD i 0 ≠ 0 :=
        hnz i (List.mem_cons_self i is) h.1 h.2
      rw [errGo, if_neg (by push_neg; exact h),
        drude_eps_of_ne_zero _ _ _ _ hz]
      dsimp only
      rw [ih _ (fun j hj => hnz j (List.mem_cons_of_mem _ hj))]
      have hterm : errTerm omega e1 e2 einf omega_p gamma wmin wmax i
          = (((drudeVal (omega.getD i 0) einf omega_p gamma).re - e1.getD i 0)
              * ((drudeVal (omega.getD i 0) einf omega_p gamma).re - e1.getD i 0)
            + ((drudeVal (omega.getD i 0) einf omega_p gamma).im - e2.getD i 0)
              * ((drudeVal (omega.getD i 0) einf omega_p gamma).im - e2.getD i 0))
          / (e1.getD i 0 * e1.getD i 0 + e2.getD i 0 * e2.getD i 0 + 1e-12) := by
        unfold errTerm
        rw [if_pos h]
        ring_nf
      simp only [List.map_cons, List.sum_cons]
      rw [hterm]
      congr 1
      ring

/-- C2: for equally long data lists and a positive-lower-bound validity
window, the fit error is `some` of the sum over exactly the indices with
`wmin ≤ omegas[i] ≤ wmax` of the normalized squared residual; indices
outside the window contribute exactly zero regardless of the data, the
result is non-negative, and it is exactly 0 when no index lies in the
window. -/
theorem computeError_spec (omega e1 e2 : List ℚ) (einf omega_p gamma wmin wmax : ℚ)
    (_hlen1 : e1.length = omega.length) (_hlen2 : e2.length = omega.length)
    (hwin : 0 < wmin) :
    ∃ S : ℚ,
      computeError omega einf omega_p gamma e1 e2 wmin wmax = some S ∧
      S = ((List.range omega.length).map
            (errTerm omega e1 e2 einf omega_p gamma wmin wmax)).sum ∧
      (∀ i : ℕ, ¬(wmin ≤ omega.getD i 0 ∧ omega.getD i 0 ≤ wmax) →
        errTerm omega e1 e2 einf omega_p gamma wmin wmax i = 0) ∧
      0 ≤ S ∧
      ((∀ i, i < omega.length → ¬(wmin ≤ omega.getD i 0 ∧ omega.getD i 0 ≤ wmax)) →
        S = 0) := by
  have hnz : ∀ i ∈ List.range omega.length,
      wmin ≤ omega.getD i 0 → omega.getD i 0 ≤ wmax → omega.getD i 0 ≠ 0 := by
    intro i _ h1 _
    exact ne_of_gt (lt_of_lt_of_le hwin h1)
  refine ⟨((List.range omega.length).map
      (errTerm omega e1 e2 einf omega_p gamma wmin wmax)).sum, ?_, rfl, ?_, ?_, ?_⟩
  · unfold computeError
    rw [errGo_eq omega e1 e2 einf omega_p gamma wmin wmax (List.range omega.length) 0 hnz]
    rw [zero_add]
  · intro i hi
    unfold errTerm
    exact if_neg hi
  · apply List.sum_nonneg
    intro x hx
    obtain ⟨i, _, rfl⟩ := List.mem_map.mp hx
    exact errTerm_nonneg omega e1 e2 einf omega_p gamma wmin wmax i
  · intro hall
    apply List.sum_eq_zero
    intro x hx
    obtain ⟨i, hi, rfl⟩ := List.mem_map.mp hx
    unfold errTerm
    exact if_neg (hall i (List.mem_range.mp hi))

/-- Witness for C2's theorem: two samples, one inside and one outside the
window `[1, 2]`. -/
theorem computeError_spec_witness :
    ([(1 : ℚ), 1] : List ℚ).length = ([(1 : ℚ), 3] : List ℚ).length ∧
    ([(0 : ℚ), 1] : List ℚ).length = ([(1 : ℚ), 3] : List ℚ).length ∧
    (0 : ℚ) < 1 ∧
    (∃ S : ℚ,
      computeError [(1 : ℚ), 3] 1 1 1 [1, 1] [0, 1] 1 2 = some S ∧
      S = ((List.range ([(1 : ℚ), 3] : List ℚ).length).map
            (errTerm [(1 : ℚ), 3] [1, 1] [0, 1] 1 1 1 1 2)).sum ∧
      (∀ i : ℕ, ¬((1 : ℚ) ≤ ([(1 : ℚ), 3] : List ℚ).getD i 0
          ∧ ([(1 : ℚ), 3] : List ℚ).getD i 0 ≤ 2) →
        errTerm [(1 : ℚ), 3] [1, 1] [0, 1] 1 1 1 1 2 i = 0) ∧
      0 ≤ S ∧
      ((∀ i, i < ([(1 : ℚ), 3] : List ℚ).length →
          ¬((1 : ℚ) ≤ ([(1 : ℚ), 3] : List ℚ).getD i 0
            ∧ ([(1 : ℚ), 3] : List ℚ).getD i 0 ≤ 2)) →
        S = 0)) :=
  ⟨rfl, rfl, by norm_num,
    computeError_spec [(1 : ℚ), 3] [1, 1] [0, 1] 1 1 1 1 2 rfl rfl (by norm_num)⟩

/-! ## Grid enumeration -/

theorem gridGo_spec (mx step : ℚ) (h : 0 < step) :
    ∀ (fuel : ℕ) (p : ℚ), (⌈(mx - p) / step⌉).toNat ≤ fuel →
      gridGo mx step fuel p
        = (List.range ((⌈(mx - p) / step⌉).toNat)).map (fun i : ℕ => p + (i : ℚ) * step) := by
  intro fuel
  induction fuel with
  | zero =>
    intro p hp
    have h0 : (⌈(mx - p) / step⌉).toNat = 0 := Nat.le_zero.mp hp
    rw [h0]
    rfl
  | succ fuel ih =>
    intro p hp
    by_cases hpm : p < mx
    · have hx : 0 < (mx - p) / step := div_pos (sub_pos.mpr hpm) h
      have hc1 : 0 < ⌈(mx - p) / step⌉ := Int.ceil_pos.mpr hx
      have hstep : (mx - (p + step)) / step = (mx - p) / step - 1 := by
        field_simp
        ring
      have hnext : ⌈(mx - (p + step)) / step⌉ = ⌈(mx - p) / step⌉ - 1 := by
        rw [hstep, Int.ceil_sub_one]
      have htn : (⌈(mx - p) / step⌉).toNat = (⌈(mx - (p + step)) / step⌉).toNat + 1 := by
        rw [hnext]; omega
      rw [gridGo, if_pos hpm, ih (p + step) (by omega), htn, List.range_succ_eq_map]
      simp only [List.map_cons, List.map_map]
      refine congrArg₂ List.cons (by push_cast; ring) ?_
      refine List.map_congr_left ?_
      intro i _
      simp only [Function.comp_apply, Nat.succ_eq_add_one]
      push_cast
      ring
    · have hsub : mx - p ≤ 0 := sub_nonpos.mpr (not_lt.mp hpm)
      have hx : (mx - p) / step ≤ 0 := by
        apply div_nonpos_of_nonpos_of_nonneg hsub h.le
      have h0 : (⌈(mx - p) / step⌉).toNat = 0 := by
        have hcl : ⌈(mx - p) / step⌉ ≤ 0 := Int.ceil_le.mpr (by exact_mod_cast hx)
        omega
      rw [h0, gridGo, if_neg hpm]
      rfl

theorem gridPoints_eq (mn mx step : ℚ) (h : 0 < step) :
    gridPoints mn mx step
      = (List.range ((⌈(mx - mn) / step⌉).toNat)).map (fun i : ℕ => mn + (i : ℚ) * step) := by
  unfold gridPoints
  rw [if_pos h]
  exact gridGo_spec mx step h _ mn le_rfl

theorem gridPoints_mem_lt (mn mx step : ℚ) (h : 0 < step) :
    ∀ i : ℕ, i < (⌈(mx - mn) / step⌉).toNat → mn + (i : ℚ) * step < mx := by
  intro i hi
  have hz : (i : ℤ) < ⌈(mx - mn) / step⌉ := by omega
  have hq : (i : ℚ) ≤ (⌈(mx - mn) / step⌉ : ℚ) - 1 := by
    have : (i : ℤ) ≤ ⌈(mx - mn) / step⌉ - 1 := by omega
    exact_mod_cast this
  have hceil : ((⌈(mx - mn) / step⌉ : ℤ) : ℚ) < (mx - mn) / step + 1 :=
    Int.ceil_lt_add_one ((mx - mn) / step)
  have hlt : (i : ℚ) < (mx - mn) / step := by linarith
  have := (lt_div_iff₀ h).mp hlt
  linarith

theorem gridPoints_end_ge (mn mx step : ℚ) (h : 0 < step) :
    mx ≤ mn + ((⌈(mx - mn) / step⌉).toNat : ℚ) * step := by
  rcases le_or_lt (⌈(mx - mn) / step⌉) 0 with hc | hc
  · have h0 : (⌈(mx - mn) / step⌉).toNat = 0 := by omega
    have hx : (mx - mn) / step ≤ (⌈(mx - mn) / step⌉ : ℚ) := Int.le_ceil _
    have hx0 : (mx - mn) / step ≤ 0 := le_trans hx (by exact_mod_cast hc)
    have := (div_le_iff₀ h).mp hx0
    rw [h0]
    push_cast
    linarith
  · have hcast : ((⌈(mx - mn) / step⌉).toNat : ℚ) = (⌈(mx - mn) / step⌉ : ℚ) := by
      have : ((⌈(mx - mn) / step⌉).toNat : ℤ) = ⌈(mx - mn) / step⌉ := by omega
      exact_mod_cast this
    have hx : (mx - mn) / step ≤ (⌈(mx - mn) / step⌉ : ℚ) := Int.le_ceil _
    have := (div_le_iff₀ h).mp hx
    rw [hcast]
    linarith

/-! ## Selection behaviour of the search loop -/

theorem fitStep_best_le (f : ℚ × ℚ → Option ℚ) (st : FitState) (x : ℚ × ℚ) :
    (fitStep f st x).best_error ≤ st.best_error := by
  unfold fitStep
  cases f x with
  | none => exact le_refl _
  | some e =>
    dsimp only
    split
    · exact le_of_lt (by assumption)
    · exact le_refl _

theorem fitStep_best_le_some (f : ℚ × ℚ → Option ℚ) (st : FitState) (x : ℚ × ℚ)
    (e : ℚ) (hfx : f x = some e) : (fitStep f st x).best_error ≤ e := by
  unfold fitStep
  rw [hfx]
  dsimp only
  split
  · exact le_refl _
  · exact not_lt.mp (by assumption)

theorem fitStep_eq_or_lt (f : ℚ × ℚ → Option ℚ) (st : FitState) (x : ℚ × ℚ) :
    fitStep f st x = st ∨ (fitStep f st x).best_error < st.best_error := by
  unfold fitStep
  cases f x with
  | none => exact Or.inl rfl
  | some e =>
    dsimp only
    split
    · exact Or.inr (by assumption)
    · exact Or.inl rfl

theorem foldl_fitStep_best_le (f : ℚ × ℚ → Option ℚ) :
    ∀ (l : List (ℚ × ℚ)) (st : FitState),
      (l.foldl (fitStep f) st).best_error ≤ st.best_error := by
  intro l
  induction l with
  | nil => exact fun st => le_refl _
  | cons x l ih =>
    intro st
    rw [List.foldl_cons]
    exact le_trans (ih (fitStep f st x)) (fitStep_best_le f st x)

theorem foldl_fitStep_stable (f : ℚ × ℚ → Option ℚ) :
    ∀ (l : List (ℚ × ℚ)) (st : FitState),
      (l.foldl (fitStep f) st).best_error = st.best_error →
      l.foldl (fitStep f) st = st := by
  intro l
  induction l with
  | nil => exact fun st _ => rfl
  | cons x l ih =>
    intro st h
    rw [List.foldl_cons] at h ⊢
    rcases fitStep_eq_or_lt f st x with hst | hlt
    · rw [hst] at h ⊢
      exact ih st h
    · exfalso
      have h1 : (List.foldl (fitStep f) (fitStep f st x) l).best_error
          ≤ (fitStep f st x).best_error := foldl_fitStep_best_le f l _
      rw [h] at h1
      exact absurd (lt_of_le_of_lt h1 hlt) (lt_irrefl _)

theorem foldl_fitStep_min (f : ℚ × ℚ → Option ℚ) :
    ∀ (l : List (ℚ × ℚ)) (st : FitState) (x : ℚ × ℚ), x ∈ l →
      ∀ e : ℚ, f x = some e → (l.foldl (fitStep f) st).best_error ≤ e := by
  intro l
  induction l with
  | nil => intro st x hx; exact absurd hx (List.not_mem_nil x)
  | cons y l ih =>
    intro st x hx e hfx
    rw [List.foldl_cons]
    rcases List.mem_cons.mp hx with rfl | hx
    · exact le_trans (foldl_fitStep_best_le f l _) (fitStep_best_le_some f st x e hfx)
    · exact ih _ x hx e hfx

theorem foldl_fitStep_no_update (f : ℚ × ℚ → Option ℚ) :
    ∀ (l : List (ℚ × ℚ)) (st : FitState),
      (∀ y ∈ l, ∀ e : ℚ, f y = some e → ¬ e < st.best_error) →
      l.foldl (fitStep f) st = st := by
  intro l
  induction l with
  | nil => exact fun st _ => rfl
  | cons y l ih =>
    intro st h
    rw [List.foldl_cons]
    have hst : fitStep f st y = st := by
      unfold fitStep
      cases hfy : f y with
      | none => rfl
      | some e =>
        dsimp only
        rw [if_neg (h y (List.mem_cons_self y l) e hfy)]
    rw [hst]
    exact ih st (fun z hz => h z (List.mem_cons_of_mem y hz))

theorem foldl_fitStep_find (f : ℚ × ℚ → Option ℚ) :
    ∀ (l : List (ℚ × ℚ)) (st : FitState),
      (l.foldl (fitStep f) st).best_error < st.best_error →
      l.find? (fun x => decide (f x = some (l.foldl (fitStep f) st).best_error))
        = some ((l.foldl (fitStep f) st).best_omega_p,
                (l.foldl (fitStep f) st).best_gamma) := by
  intro l
  induction l with
  | nil => intro st h; exact absurd h (lt_irrefl _)
  | cons x l ih =>
    intro st hm
    rw [List.foldl_cons] at hm ⊢
    cases hfx : f x with
    | none =>
      have hst : fitStep f st x = st := by unfold fitStep; rw [hfx]
      rw [hst] at hm ⊢
      rw [List.find?_cons_of_neg _ (by simp [hfx])]
      exact ih st hm
    | some e =>
      by_cases he : e < st.best_error
      · have hst : fitStep f st x = ⟨e, x.1, x.2⟩ := by
          unfold fitStep
          rw [hfx]
          dsimp only
          rw [if_pos he]
        rw [hst] at hm ⊢
        by_cases hme : (List.foldl (fitStep f) ⟨e, x.1, x.2⟩ l).best_error < e
        · rw [List.find?_cons_of_neg _ (by
            simp only [hfx]
            intro hc'
            have hc := of_decide_eq_true hc'
            have h2 : e = (List.foldl (fitStep f) ⟨e, x.1, x.2⟩ l).best_error :=
              Option.some.inj hc
            rw [← h2] at hme
            exact absurd hme (lt_irrefl e))]
          exact ih ⟨e, x.1, x.2⟩ hme
        · have hle : (List.foldl (fitStep f) ⟨e, x.1, x.2⟩ l).best_error ≤ e :=
            foldl_fitStep_best_le f l ⟨e, x.1, x.2⟩
          have heq : (List.foldl (fitStep f) ⟨e, x.1, x.2⟩ l).best_error = e :=
            le_antisymm hle (not_lt.mp hme)
          have hres : List.foldl (fitStep f) ⟨e, x.1, x.2⟩ l = ⟨e, x.1, x.2⟩ :=
            foldl_fitStep_stable f l ⟨e, x.1, x.2⟩ heq
          rw [hres]
          rw [List.find?_cons_of_pos _ (by simp [hfx])]
      · have hst : fitStep f st x = st := by
          unfold fitStep
          rw [hfx]
          dsimp only
          rw [if_neg he]
        rw [hst] at hm ⊢
        rw [List.find?_cons_of_neg _ (by
          simp only [hfx]
          intro hc'
          have hc := of_decide_eq_true hc'
          have h2 : e = (List.foldl (fitStep f) st l).best_error := Option.some.inj hc
          rw [← h2] at hm
          exact absurd (lt_of_lt_of_le hm (not_lt.mp he)) (lt_irrefl e))]
        exact ih st hm

theorem foldl_nested_pairs {α β γ : Type} (h : γ → α × β → γ) :
    ∀ (l1 : List α) (l2 : List β) (init : γ),
      l1.foldl (fun st a => l2.foldl (fun st b => h st (a, b)) st) init
        = (l1.flatMap (fun a => l2.map (fun b => (a, b)))).foldl h init := by
  intro l1
  induction l1 with
  | nil => intro l2 init; rfl
  | cons a l1 ih =>
    intro l2 init
    simp only [List.foldl_cons, List.flatMap_cons, List.foldl_append, List.foldl_map]
    exact ih l2 _

theorem gridSearch_eq_foldl (omega e1 e2 : List ℚ) (cfg : Config) :
    gridSearch omega e1 e2 cfg
      = (gridPairs cfg).foldl (fitStep (cellError omega e1 e2 cfg)) ⟨1e300, 0, 0⟩ := by
  unfold gridSearch gridPairs
  exact foldl_nested_pairs (fitStep (cellError omega e1 e2 cfg)) _ _ _

/-- C3: the grid search enumerates the plasma frequency half-open from
`plasmaMin` while strictly below `plasmaMax` in steps of `plasmaStep`
(likewise damping, nested inside), replaces the incumbent only on a strictly
smaller error, and therefore returns the first grid pair — in
outer-plasma/inner-damping order — achieving the minimal error. -/
theorem gridSearch_halfopen_first_min (omega e1 e2 : List ℚ) (cfg : Config)
    (hps : 0 < cfg.plasmaStep) (hgs : 0 < cfg.dampStep)
    (hfin : ∃ pg ∈ gridPairs cfg, ∃ e : ℚ,
      cellError omega e1 e2 cfg pg = some e ∧ e < 1e300) :
    gridPoints cfg.plasmaMin cfg.plasmaMax cfg.plasmaStep
        = (List.range ((⌈(cfg.plasmaMax - cfg.plasmaMin) / cfg.plasmaStep⌉).toNat)).map
            (fun i : ℕ => cfg.plasmaMin + (i : ℚ) * cfg.plasmaStep) ∧
    (∀ i : ℕ, i < (⌈(cfg.plasmaMax - cfg.plasmaMin) / cfg.plasmaStep⌉).toNat →
      cfg.plasmaMin + (i : ℚ) * cfg.plasmaStep < cfg.plasmaMax) ∧
    cfg.plasmaMax ≤ cfg.plasmaMin
        + ((⌈(cfg.plasmaMax - cfg.plasmaMin) / cfg.plasmaStep⌉).toNat : ℚ) * cfg.plasmaStep ∧
    gridPoints cfg.dampMin cfg.dampMax cfg.dampStep
        = (List.range ((⌈(cfg.dampMax - cfg.dampMin) / cfg.dampStep⌉).toNat)).map
            (fun i : ℕ => cfg.dampMin + (i : ℚ) * cfg.dampStep) ∧
    (∀ i : ℕ, i < (⌈(cfg.dampMax - cfg.dampMin) / cfg.dampStep⌉).toNat →
      cfg.dampMin + (i : ℚ) * cfg.dampStep < cfg.dampMax) ∧
    cfg.dampMax ≤ cfg.dampMin
        + ((⌈(cfg.dampMax - cfg.dampMin) / cfg.dampStep⌉).toNat : ℚ) * cfg.dampStep ∧
    (∀ pg ∈ gridPairs cfg, ∀ e : ℚ, cellError omega e1 e2 cfg pg = some e →
      (gridSearch omega e1 e2 cfg).best_error ≤ e) ∧
    (gridPairs cfg).find?
        (fun pg => decide (cellError omega e1 e2 cfg pg
            = some (gridSearch omega e1 e2 cfg).best_error))
      = some ((gridSearch omega e1 e2 cfg).best_omega_p,
              (gridSearch omega e1 e2 cfg).best_gamma) := by
  refine ⟨gridPoints_eq _ _ _ hps, gridPoints_mem_lt _ _ _ hps, gridPoints_end_ge _ _ _ hps,
    gridPoints_eq _ _ _ hgs, gridPoints_mem_lt _ _ _ hgs, gridPoints_end_ge _ _ _ hgs,
    ?_, ?_⟩
  · intro pg hpg e he
    rw [gridSearch_eq_foldl]
    exact foldl_fitStep_min (cellError omega e1 e2 cfg) (gridPairs cfg) _ pg hpg e he
  · obtain ⟨pg, hpg, e, he, helt⟩ := hfin
    have hm : ((gridPairs cfg).foldl (fitStep (cellError omega e1 e2 cfg))
        ⟨1e300, 0, 0⟩).best_error < (1e300 : ℚ) :=
      lt_of_le_of_lt
        (foldl_fitStep_min (cellError omega e1 e2 cfg) (gridPairs cfg) _ pg hpg e he) helt
    rw [gridSearch_eq_foldl]
    exact foldl_fitStep_find (cellError omega e1 e2 cfg) (gridPairs cfg) ⟨1e300, 0, 0⟩ hm

/-! ## Degenerate-fit behaviour (empty window / empty grid / empty dataset) -/

theorem cellError_all_outside (omega e1 e2 : List ℚ) (cfg : Config)
    (hall : ∀ i : ℕ, ¬(cfg.windowMin ≤ omega.getD i 0 ∧ omega.getD i 0 ≤ cfg.windowMax)) :
    ∀ pg : ℚ × ℚ, cellError omega e1 e2 cfg pg = some 0 := by
  intro pg
  unfold cellError computeError
  rw [errGo_eq omega e1 e2 cfg.epsInf pg.1 pg.2 cfg.windowMin cfg.windowMax
    (List.range omega.length) 0
    (fun i _ h1 h2 => absurd ⟨h1, h2⟩ (hall i))]
  have hsum : ((List.range omega.length).map
      (errTerm omega e1 e2 cfg.epsInf pg.1 pg.2 cfg.windowMin cfg.windowMax)).sum = 0 := by
    apply List.sum_eq_zero
    intro x hx
    obtain ⟨i, _, rfl⟩ := List.mem_map.mp hx
    unfold errTerm
    exact if_neg (hall i)
  rw [hsum, add_zero]

theorem gridPoints_cons (mn mx step : ℚ) (h : 0 < step) (hlt : mn < mx) :
    ∃ t : List ℚ, gridPoints mn mx step = mn :: t := by
  unfold gridPoints
  rw [if_pos h]
  have h1 : 0 < (⌈(mx - mn) / step⌉).toNat := by
    have := Int.ceil_pos.mpr (div_pos (sub_pos.mpr hlt) h)
    omega
  obtain ⟨f2, hf⟩ : ∃ f2 : ℕ, (⌈(mx - mn) / step⌉).toNat = f2 + 1 :=
    ⟨(⌈(mx - mn) / step⌉).toNat - 1, by omega⟩
  rw [hf, gridGo, if_pos hlt]
  exact ⟨_, rfl⟩

theorem gridPairs_cons (cfg : Config) (h1 : 0 < cfg.plasmaStep)
    (h2 : cfg.plasmaMin < cfg.plasmaMax) (h3 : 0 < cfg.dampStep)
    (h4 : cfg.dampMin < cfg.dampMax) :
    ∃ t : List (ℚ × ℚ), gridPairs cfg = (cfg.plasmaMin, cfg.dampMin) :: t := by
  obtain ⟨tp, hp⟩ := gridPoints_cons _ _ _ h1 h2
  obtain ⟨tg, hg⟩ := gridPoints_cons _ _ _ h3 h4
  unfold gridPairs
  rw [hp, hg]
  refine ⟨tg.map (fun g => (cfg.plasmaMin, g))
      ++ tp.flatMap (fun p => (cfg.dampMin :: tg).map (fun g => (p, g))), ?_⟩
  simp

theorem foldl_fitStep_all_same (f : ℚ × ℚ → Option ℚ) (cv : ℚ)
    (x : ℚ × ℚ) (l : List (ℚ × ℚ)) (st : FitState)
    (hall : ∀ y ∈ x :: l, f y = some cv) (hlt : cv < st.best_error) :
    (x :: l).foldl (fitStep f) st = ⟨cv, x.1, x.2⟩ := by
  rw [List.foldl_cons]
  have hst : fitStep f st x = ⟨cv, x.1, x.2⟩ := by
    unfold fitStep
    rw [hall x (List.mem_cons_self x l)]
    dsimp only
    rw [if_pos hlt]
  rw [hst]
  apply foldl_fitStep_no_update
  intro y hy e he
  rw [hall y (List.mem_cons_of_mem x hy)] at he
  have hce : cv = e := Option.some.inj he
  rw [← hce]
  exact lt_irrefl cv

/-- C1 (code behaviour at the failing inputs): with the source's default
configuration and a dataset whose only frequency `1e14` lies outside the
validity window `[1.5e15, 4.0e15]`, every grid cell scores 0 and the search
returns a result with `best_error = 0` at the first grid point
`(1.0e15, 1.0e13)`; the same happens for an empty dataset; and with a
misconfigured bound `plasmaFreqRange.min = plasmaFreqRange.max` the loop
body never runs and the never-updated sentinel `⟨1e300, 0, 0⟩` is returned.
No `NoFitFoundError` path exists in the code. -/
theorem gridSearch_no_error_path :
    gridSearch [1e14] [1] [1] defaultConfig = ⟨0, 1.0e15, 1.0e13⟩ ∧
    gridSearch [] [] [] defaultConfig = ⟨0, 1.0e15, 1.0e13⟩ ∧
    gridSearch [1e14] [1] [1]
        (⟨4.3, 3.0e16, 3.0e16, 0.05e15, 1.0e13, 1.5e14, 0.1e13, 1.5e15, 4.0e15⟩ : Config)
      = ⟨1e300, 0, 0⟩ := by
  have hcons : ∃ t : List (ℚ × ℚ),
      gridPairs defaultConfig = (defaultConfig.plasmaMin, defaultConfig.dampMin) :: t := by
    apply gridPairs_cons defaultConfig
    · show (0 : ℚ) < domega_p
      norm_num [domega_p]
    · show omega_p_min < omega_p_max
      norm_num [omega_p_min, omega_p_max]
    · show (0 : ℚ) < dgamma
      norm_num [dgamma]
    · show gamma_min < gamma_max
      norm_num [gamma_min, gamma_max]
  refine ⟨?_, ?_, ?_⟩
  · obtain ⟨t, ht⟩ := hcons
    have hall : ∀ i : ℕ, ¬(defaultConfig.windowMin ≤ ([(1e14 : ℚ)]).getD i 0
        ∧ ([(1e14 : ℚ)]).getD i 0 ≤ defaultConfig.windowMax) := by
      intro i
      match i with
      | 0 =>
        show ¬(omega_min ≤ (1e14 : ℚ) ∧ (1e14 : ℚ) ≤ omega_max)
        norm_num [omega_min, omega_max]
      | j + 1 =>
        show ¬(omega_min ≤ ([(1e14 : ℚ)]).getD (j + 1) 0
            ∧ ([(1e14 : ℚ)]).getD (j + 1) 0 ≤ omega_max)
        simp [omega_min, omega_max]
        norm_num
    rw [gridSearch_eq_foldl, ht,
      foldl_fitStep_all_same _ 0 _ t ⟨1e300, 0, 0⟩
        (fun y _ => cellError_all_outside [1e14] [1] [1] defaultConfig hall y)
        (by norm_num)]
    show (⟨0, omega_p_min, gamma_min⟩ : FitState) = ⟨0, 1.0e15, 1.0e13⟩
    norm_num [omega_p_min, gamma_min]
  · obtain ⟨t, ht⟩ := hcons
    have hall : ∀ i : ℕ, ¬(defaultConfig.windowMin ≤ ([] : List ℚ).getD i 0
        ∧ ([] : List ℚ).getD i 0 ≤ defaultConfig.windowMax) := by
      intro i
      show ¬(omega_min ≤ ([] : List ℚ).getD i 0 ∧ ([] : List ℚ).getD i 0 ≤ omega_max)
      simp [omega_min, omega_max]
      norm_num
    rw [gridSearch_eq_foldl, ht,
      foldl_fitStep_all_same _ 0 _ t ⟨1e300, 0, 0⟩
        (fun y _ => cellError_all_outside [] [] [] defaultConfig hall y)
        (by norm_num)]
    show (⟨0, omega_p_min, gamma_min⟩ : FitState) = ⟨0, 1.0e15, 1.0e13⟩
    norm_num [omega_p_min, gamma_min]
  · have hempty : gridPoints (3.0e16 : ℚ) 3.0e16 0.05e15 = [] := by
      rw [gridPoints_eq _ _ _ (by norm_num)]
      have h0 : ⌈((3.0e16 : ℚ) - 3.0e16) / 0.05e15⌉ = 0 := by norm_num
      rw [h0]
      rfl
    unfold gridSearch
    rw [hempty]
    rfl

theorem gridPoints_one_two : gridPoints (1 : ℚ) 2 1 = [1] := by
  rw [gridPoints_eq 1 2 1 one_pos]
  have h1 : ⌈((2 : ℚ) - 1) / 1⌉ = 1 := by norm_num
  rw [h1]
  show (List.range 1).map _ = [1]
  have hr : List.range 1 = [0] := rfl
  rw [hr]
  simp

theorem gridPairs_small :
    gridPairs ⟨1, 1, 2, 1, 1, 2, 1, 1, 1⟩ = [((1 : ℚ), (1 : ℚ))] := by
  show (gridPoints (1 : ℚ) 2 1).flatMap
      (fun p => (gridPoints (1 : ℚ) 2 1).map (fun g => (p, g))) = _
  rw [gridPoints_one_two]
  simp

theorem cellError_small :
    cellError [1] [1] [0] ⟨1, 1, 2, 1, 1, 2, 1, 1, 1⟩ ((1 : ℚ), (1 : ℚ))
      = some ((1 / 2) / (1 + 1e-12)) := by
  show computeError [1] 1 1 1 [1] [0] 1 1 = _
  unfold computeError
  show errGo [1] [1] [0] 1 1 1 1 1 (List.range 1) 0 = _
  have hr : List.range 1 = [0] := rfl
  rw [hr]
  rw [errGo]
  rw [if_neg (by norm_num)]
  have hg1 : ([1] : List ℚ).getD 0 0 = 1 := rfl
  have hg0 : ([0] : List ℚ).getD 0 0 = 0 := rfl
  rw [hg1, hg0]
  rw [drude_eps_of_ne_zero _ _ _ _ (by norm_num : ((1 : ℚ)) ≠ 0)]
  dsimp only
  rw [errGo]
  congr 1
  norm_num [drudeVal, Cplx.sub, Cplx.div, Cplx.ofRat]

/-- Witness for C3's theorem on a 1×1 grid (plasma and damping both range
over `[1, 2)` with step 1) and the single in-window sample `ω = 1`. -/
theorem gridSearch_halfopen_first_min_witness :
    (0 : ℚ) < 1 ∧ (0 : ℚ) < 1 ∧
    (∃ pg ∈ gridPairs ⟨1, 1, 2, 1, 1, 2, 1, 1, 1⟩, ∃ e : ℚ,
      cellError [1] [1] [0] ⟨1, 1, 2, 1, 1, 2, 1, 1, 1⟩ pg = some e ∧ e < 1e300) ∧
    (gridPoints (1 : ℚ) 2 1
        = (List.range ((⌈((2 : ℚ) - 1) / 1⌉).toNat)).map (fun i : ℕ => 1 + (i : ℚ) * 1) ∧
      (∀ i : ℕ, i < (⌈((2 : ℚ) - 1) / 1⌉).toNat → 1 + (i : ℚ) * 1 < 2) ∧
      (2 : ℚ) ≤ 1 + ((⌈((2 : ℚ) - 1) / 1⌉).toNat : ℚ) * 1 ∧
      gridPoints (1 : ℚ) 2 1
        = (List.range ((⌈((2 : ℚ) - 1) / 1⌉).toNat)).map (fun i : ℕ => 1 + (i : ℚ) * 1) ∧
      (∀ i : ℕ, i < (⌈((2 : ℚ) - 1) / 1⌉).toNat → 1 + (i : ℚ) * 1 < 2) ∧
      (2 : ℚ) ≤ 1 + ((⌈((2 : ℚ) - 1) / 1⌉).toNat : ℚ) * 1 ∧
      (∀ pg ∈ gridPairs ⟨1, 1, 2, 1, 1, 2, 1, 1, 1⟩, ∀ e : ℚ,
        cellError [1] [1] [0] ⟨1, 1, 2, 1, 1, 2, 1, 1, 1⟩ pg = some e →
        (gridSearch [1] [1] [0] ⟨1, 1, 2, 1, 1, 2, 1, 1, 1⟩).best_error ≤ e) ∧
      (gridPairs ⟨1, 1, 2, 1, 1, 2, 1, 1, 1⟩).find?
          (fun pg => decide (cellError [1] [1] [0] ⟨1, 1, 2, 1, 1, 2, 1, 1, 1⟩ pg
              = some (gridSearch [1] [1] [0] ⟨1, 1, 2, 1, 1, 2, 1, 1, 1⟩).best_error))
        = some ((gridSearch [1] [1] [0] ⟨1, 1, 2, 1, 1, 2, 1, 1, 1⟩).best_omega_p,
                (gridSearch [1] [1] [0] ⟨1, 1, 2, 1, 1, 2, 1, 1, 1⟩).best_gamma)) :=
  ⟨by norm_num, by norm_num,
    ⟨((1 : ℚ), (1 : ℚ)), by rw [gridPairs_small]; exact List.mem_singleton.mpr rfl,
      (1 / 2) / (1 + 1e-12), cellError_small, by norm_num⟩,
    gridSearch_halfopen_first_min [1] [1] [0] ⟨1, 1, 2, 1, 1, 2, 1, 1, 1⟩
      (by norm_num) (by norm_num)
      ⟨((1 : ℚ), (1 : ℚ)), by rw [gridPairs_small]; exact List.mem_singleton.mpr rfl,
        (1 / 2) / (1 + 1e-12), cellError_small, by norm_num⟩⟩
